import Mathlib

/-!
Verification development for the CarnetDeRecettes recipe manager
(single source file recette.py).

The development shallowly embeds the data-access layer (SQLite table
`recettes` with its CRUD and search helpers) and the image-asset
lifecycle handlers, and proves the behavioural properties stated about
them.

Modelling conventions:
- the SQLite table is a `Store`: a list of `Row`s (insertion order)
  plus the next AUTOINCREMENT id;
- nullable TEXT columns are `Option String`; the NOT NULL `name`
  column is `String`;
- wall-clock inputs (the `created_at` ISO string, the millisecond
  timestamp used for image filenames) are explicit parameters;
- the filesystem is a list of existing paths, a path being its list
  of components (all paths absolute, as the code only handles
  absolute paths built from `os.path`).
-/

namespace Recette

/-- A stored row of the `recettes` table, with the eight columns of the
schema created by init_db (recette.py lines 39-50).  `id` is the
INTEGER PRIMARY KEY; `name` is NOT NULL; the remaining TEXT columns are
nullable. -/
structure Row where
  id : Nat
  name : String
  ingredients : Option String
  steps : Option String
  prep_time : Option String
  category : Option String
  image_path : Option String
  created_at : Option String
  deriving DecidableEq, Repr

/-- The durable store: the rows of the `recettes` table in insertion
order together with the next id the AUTOINCREMENT column will assign. -/
structure Store where
  rows : List Row
  nextId : Nat
  deriving DecidableEq, Repr

/-- Well-formedness maintained by SQLite AUTOINCREMENT: every stored id
is strictly below the next id to be assigned, so fresh ids are never
reused. -/
def Store.WF (s : Store) : Prop := ∀ r ∈ s.rows, r.id < s.nextId

/-- The seven columns selected by get_recipe_by_id
(recette.py line 65): id, name, ingredients, steps, prep_time,
category, image_path.  The created_at column is not part of the
SELECT list. -/
structure GetRow where
  id : Nat
  name : String
  ingredients : Option String
  steps : Option String
  prep_time : Option String
  category : Option String
  image_path : Option String
  deriving DecidableEq, Repr

/-- get_recipe_by_id (recette.py lines 62-68): SELECT the seven listed
columns of the first row WHERE id matches; fetchone yields None when no
row matches. -/
def get_recipe_by_id (s : Store) (recipe_id : Nat) : Option GetRow :=
  (s.rows.find? (fun r => r.id == recipe_id)).map
    (fun r => ⟨r.id, r.name, r.ingredients, r.steps, r.prep_time, r.category, r.image_path⟩)

/-- add_recipe_db (recette.py lines 70-80): INSERT a new row whose id is
the fresh AUTOINCREMENT value and whose created_at is the current UTC
ISO-8601 string (passed here as the explicit parameter `now`), and
return lastrowid. -/
def add_recipe_db (s : Store) (name : String)
    (ingredients steps prep_time category image_path : Option String)
    (now : String) : Store × Nat :=
  let r : Row :=
    ⟨s.nextId, name, ingredients, steps, prep_time, category, image_path, some now⟩
  (⟨s.rows ++ [r], s.nextId + 1⟩, s.nextId)

/-- update_recipe_db (recette.py lines 82-90): UPDATE overwrites name,
ingredients, steps, prep_time, category and image_path of every row
WHERE id matches (created_at and id are not in the SET list); zero
matching rows leave the table unchanged. -/
def update_recipe_db (s : Store) (recipe_id : Nat) (name : String)
    (ingredients steps prep_time category image_path : Option String) : Store :=
  ⟨s.rows.map (fun r =>
      if r.id == recipe_id then
        { r with name := name, ingredients := ingredients, steps := steps,
                 prep_time := prep_time, category := category, image_path := image_path }
      else r),
   s.nextId⟩

/-- ASCII lower-casing of one character: the folding applied by
SQLite's default NOCASE collation and by its default LIKE operator,
which are case-insensitive for the 26 ASCII upper-case letters only. -/
def lcA (c : Char) : Char :=
  if 65 ≤ c.toNat ∧ c.toNat ≤ 90 then Char.ofNat (c.toNat + 32) else c

/-- Sort key of a name under COLLATE NOCASE: the sequence of code
points after ASCII case folding.  Comparing code-point sequences
lexicographically agrees with SQLite's byte-wise comparison because
UTF-8 encoding is order-preserving on code points. -/
def nameKey (s : String) : List Nat := s.data.map (fun c => (lcA c).toNat)

/-- Lexicographic less-or-equal on code-point sequences. -/
def lexLe : List Nat → List Nat → Bool
  | [], _ => true
  | _ :: _, [] => false
  | a :: as, b :: bs => if a < b then true else if b < a then false else lexLe as bs

/-- The NOCASE order on names used by the ORDER BY clauses of
query_all_recipes and search_recipes_by_text. -/
def nocaseLe (a b : String) : Bool := lexLe (nameKey a) (nameKey b)

/-- Insert a row into a list that is already in NOCASE name order. -/
def insertByName (r : Row) : List Row → List Row
  | [] => [r]
  | x :: xs => if nocaseLe r.name x.name then r :: x :: xs else x :: insertByName r xs

/-- ORDER BY name COLLATE NOCASE, modelled as an insertion sort of the
rows by the NOCASE order on names (SQL leaves the relative order of
equal keys unspecified; the theorems below only use sortedness and the
multiset of rows). -/
def sortByName (l : List Row) : List Row := l.foldr insertByName []

/-- SQLite LIKE matching of a pattern against a string, on character
lists: a percent sign matches any sequence (including the empty one),
an underscore matches any single character, and any other pattern
character matches ASCII-case-insensitively.  No ESCAPE clause is in
play in the source. -/
def likeM : List Char → List Char → Bool
  | [], s => s.isEmpty
  | p :: ps, s =>
    if p = '%' then
      s.tails.any (fun t => likeM ps t)
    else
      match s with
      | [] => false
      | c :: ss => (if p = '_' then true else lcA p == lcA c) && likeM ps ss

/-- LIKE on strings. -/
def sqliteLike (pat s : String) : Bool := likeM pat.data s.data

/-- A LIKE comparison against a nullable column: SQL three-valued logic
makes `NULL LIKE pat` NULL, which a WHERE clause does not select. -/
def optLike (pat : String) : Option String → Bool
  | none => false
  | some s => sqliteLike pat s

/-- The text disjunct of the WHERE clause of search_recipes_by_text:
name LIKE pat OR ingredients LIKE pat OR steps LIKE pat. -/
def rowTextMatch (pat : String) (r : Row) : Bool :=
  sqliteLike pat r.name || optLike pat r.ingredients || optLike pat r.steps

/-- The (id, name, category) result tuple produced by the SELECT lists
of query_all_recipes and search_recipes_by_text. -/
def listRow (r : Row) : Nat × String × Option String := (r.id, r.name, r.category)

/-- query_all_recipes (recette.py lines 54-60): SELECT id, name,
category FROM recettes ORDER BY name COLLATE NOCASE. -/
def query_all_recipes (s : Store) : List (Nat × String × Option String) :=
  (sortByName s.rows).map listRow

/-- search_recipes_by_text (recette.py lines 103-119): build the
pattern as percent-text-percent; when category_filter is truthy (not
None, not the empty string) and differs from the sentinel "Tout", AND
the text disjunction with exact category equality, otherwise use the
text disjunction alone; order results by name COLLATE NOCASE. -/
def search_recipes_by_text (s : Store) (text : String)
    (category_filter : Option String) : List (Nat × String × Option String) :=
  let like := "%" ++ text ++ "%"
  let rows :=
    match category_filter with
    | some cf =>
      if cf = "" ∨ cf = "Tout" then
        s.rows.filter (fun r => rowTextMatch like r)
      else
        s.rows.filter (fun r => rowTextMatch like r && r.category == some cf)
    | none => s.rows.filter (fun r => rowTextMatch like r)
  (sortByName rows).map listRow

/-- delete_recipe_db (recette.py lines 92-101): read the row first
(`img = row[6] if row else None`, index 6 being image_path in the
get_recipe_by_id SELECT list), then DELETE WHERE id matches, and return
the image path. -/
def delete_recipe_db (s : Store) (recipe_id : Nat) : Option String × Store :=
  let img : Option String :=
    match get_recipe_by_id s recipe_id with
    | some row => row.image_path
    | none => none
  (img, ⟨s.rows.filter (fun r => !(r.id == recipe_id)), s.nextId⟩)

/-- An absolute filesystem path, as its list of components.  The code
only manipulates absolute paths (APP_DIR is the absolute directory of
the script, IMAGES_DIR is APP_DIR joined with "images", and candidate
paths are passed through os.path.abspath before comparison). -/
abbrev Path := List String

/-- The check `os.path.commonpath([os.path.abspath(p), IMAGES_DIR]) ==
IMAGES_DIR` used at recette.py lines 335, 350 and 405: the common
ancestor of the two paths is the images directory itself, i.e. the
directory's components are a prefix of the path's components. -/
def insideDir (dir p : Path) : Bool := dir.isPrefixOf p

/-- os.path.splitext restricted to what the code needs: the extension
of a basename, i.e. the substring from the last dot on, where dots
leading the basename do not start an extension. -/
def splitextExt (b : String) : String :=
  let rest := b.data.dropWhile (fun c => c = '.')
  if rest.contains '.' then
    ⟨'.' :: (rest.reverse.takeWhile (fun c => c ≠ '.')).reverse⟩
  else ""

/-- The destination path built at recette.py lines 327-329:
IMAGES_DIR joined with the string img_ followed by the millisecond
timestamp `int(datetime.now(timezone.utc).timestamp() * 1000)`
(explicit parameter tMs here) followed by the source extension. -/
def importDest (imagesDir : Path) (tMs : Nat) (src : Path) : Path :=
  imagesDir ++ ["img_" ++ toString tMs ++ splitextExt (src.getLastD "")]

/-- Add a path to the set of existing files (an existing file at that
path is overwritten in place). -/
def insertPath (p : Path) (fs : List Path) : List Path :=
  if fs.contains p then fs else p :: fs

/-- The ways the `shutil.copy(fname, dest)` call at recette.py line 330
can end.  CPython's shutil.copy delegates to shutil.copyfile, which
opens the source for reading, then opens the destination for writing at
its final path (creating or truncating it) and transfers chunks; there
is no temporary name and no rename step. -/
inductive CopyOutcome
  /-- The whole copy succeeded. -/
  | ok
  /-- Opening the source failed (unreadable source); the destination
  was never created. -/
  | srcOpenFail
  /-- Opening the destination failed; no destination file was
  created. -/
  | destOpenFail
  /-- The transfer failed after both files were open (source read
  error, disk full); a partial file exists at the destination path. -/
  | midCopyFail
  deriving DecidableEq, Repr

/-- Effect of `shutil.copy` into `dest` on the set of existing files,
per outcome, together with whether the call returned (true) or raised
(false). -/
def shutil_copy (fs : List Path) (dest : Path) : CopyOutcome → List Path × Bool
  | .ok => (insertPath dest fs, true)
  | .srcOpenFail => (fs, false)
  | .destOpenFail => (fs, false)
  | .midCopyFail => (insertPath dest fs, false)

/-- on_import_image (recette.py lines 320-342), after a source file was
chosen: compute the destination name from the timestamp and the source
extension, run shutil.copy, and on success delete the previously
referenced image when the form has one that exists inside the images
directory, then point the form at the new file.  Any exception is
caught and reported through an error dialog (the handler itself raises
nothing); the form's image reference is then left unchanged.  Returns
the file set, the form's current image reference, and whether the
error dialog was shown. -/
def on_import_image (imagesDir : Path) (fs : List Path) (current : Option Path)
    (src : Path) (tMs : Nat) (outcome : CopyOutcome) :
    List Path × Option Path × Bool :=
  let dest := importDest imagesDir tMs src
  match shutil_copy fs dest outcome with
  | (fs1, true) =>
    let fs2 :=
      match current with
      | some old =>
        if fs1.contains old && insideDir imagesDir old then fs1.erase old else fs1
      | none => fs1
    (fs2, some dest, false)
  | (fs1, false) => (fs1, current, true)

/-- on_remove_image (recette.py lines 344-355): when the form has no
current image (None or the empty string, both falsy) only an
information dialog is shown; otherwise the file is deleted exactly
when it exists and lies inside the images directory (exceptions are
swallowed), and the form's image reference is cleared. -/
def on_remove_image (imagesDir : Path) (fs : List Path) (current : Option Path) :
    List Path × Option Path :=
  match current with
  | none => (fs, none)
  | some p =>
    (if fs.contains p && insideDir imagesDir p then fs.erase p else fs, none)

/-- The image-file cleanup step of on_delete (recette.py lines
402-408): given the image path returned by delete_recipe_db, delete
the file exactly when the path is truthy, the file exists, and it lies
inside the images directory; exceptions are swallowed. -/
def on_delete_cleanup (imagesDir : Path) (fs : List Path) (img : Option Path) :
    List Path :=
  match img with
  | none => fs
  | some p => if fs.contains p && insideDir imagesDir p then fs.erase p else fs

/-! Lemmas about the NOCASE order and the sort. -/

/-- The search text contains no LIKE wildcard. -/
abbrev noWild (t : List Char) : Prop := ∀ c ∈ t, c ≠ '%' ∧ c ≠ '_'

/-- Case-insensitive (ASCII folding) substring occurrence: some
in-place segment of s folds to the same characters as t. -/
def ciMatch (t s : List Char) : Prop :=
  ∃ a b c, s = a ++ b ++ c ∧ b.map lcA = t.map lcA

/-- The text part of the WHERE clause, stated declaratively:
the search text occurs (case-insensitively) in the name, in a non-NULL
ingredients field, or in a non-NULL steps field. -/
def likeCond (text : String) (r : Row) : Prop :=
  ciMatch text.data r.name.data ∨
  (∃ v, r.ingredients = some v ∧ ciMatch text.data v.data) ∨
  (∃ v, r.steps = some v ∧ ciMatch text.data v.data)

/-- The category part of the WHERE clause, stated declaratively: no
restriction unless the filter is truthy and differs from the sentinel
"Tout", in which case the category must equal it exactly. -/
def catCond (category_filter : Option String) (r : Row) : Prop :=
  match category_filter with
  | none => True
  | some cf => cf = "" ∨ cf = "Tout" ∨ r.category = some cf

/-- A concrete recipe whose ingredients contain the capitalised word
"Chocolat" while no field contains the lower-case text "choco". -/
def chocolatRow : Row :=
  ⟨1, "Tarte", some "Chocolat noir", some "Melanger et cuire", some "30 min",
   some "Plat", none, some "2024-01-01T00:00:00+00:00"⟩

/-- The claim's literal reading of the match: the search text is a
case-sensitive substring of the field (spec words: text is a substring
of name, ingredients, or steps). -/
def claimSubstring (t s : String) : Bool :=
  s.data.tails.any (fun suf => t.data.isPrefixOf suf)

/-- A concrete recipe with a stored image. -/
def soupeRow : Row :=
  ⟨1, "Soupe", some "poireaux et patates", some "cuire 20 min", some "20 min",
   some "Entrée", some "/home/user/recettes/images/img_1700000000000.png",
   some "2024-05-01T10:00:00+00:00"⟩

/-- The same record as soupeRow except for its creation timestamp. -/
def soupeRowLater : Row :=
  { soupeRow with created_at := some "2025-06-30T12:00:00+00:00" }

/-- A concrete recipe with no stored image (NULL image_path). -/
def painRow : Row :=
  ⟨1, "Pain", none, none, none, some "Autre", none,
   some "2024-02-02T08:00:00+00:00"⟩

/-- A concrete managed-images directory. -/
def imagesDirEx : Path := ["home", "user", "recettes", "images"]

/-- A concrete file outside the managed directory. -/
def etcHosts : Path := ["etc", "hosts"]

/-- A concrete source image outside the managed directory. -/
def srcEx : Path := ["pics", "photo.png"]

/-- Decimal digit characters of a natural number, most significant
first. -/
def digitsR (n : Nat) : List Char :=
  if _h : n < 10 then [Nat.digitChar n]
  else digitsR (n / 10) ++ [Nat.digitChar (n % 10)]
termination_by n
decreasing_by exact Nat.div_lt_self (by omega) (by decide)

theorem lexLe_cons (a b : Nat) (as bs : List Nat) :
    lexLe (a :: as) (b :: bs) = true ↔ (a < b ∨ (a = b ∧ lexLe as bs = true)) := by
  simp only [lexLe]
  rcases Nat.lt_trichotomy a b with h | h | h
  · rw [if_pos h]
    simp [h]
  · subst h
    simp [Nat.lt_irrefl]
  · rw [if_neg (Nat.lt_asymm h), if_pos h]
    refine iff_of_false (by simp) ?_
    rintro (h' | ⟨rfl, -⟩) <;> omega

theorem lexLe_total (x y : List Nat) : lexLe x y = true ∨ lexLe y x = true := by
  induction x generalizing y with
  | nil => exact Or.inl rfl
  | cons a as ih =>
    cases y with
    | nil => exact Or.inr rfl
    | cons b bs =>
      rw [lexLe_cons, lexLe_cons]
      rcases Nat.lt_trichotomy a b with h | h | h
      · exact Or.inl (Or.inl h)
      · subst h
        rcases ih bs with h' | h'
        · exact Or.inl (Or.inr ⟨rfl, h'⟩)
        · exact Or.inr (Or.inr ⟨rfl, h'⟩)
      · exact Or.inr (Or.inl h)

theorem lexLe_trans (x y z : List Nat) (h1 : lexLe x y = true)
    (h2 : lexLe y z = true) : lexLe x z = true := by
  induction x generalizing y z with
  | nil => rfl
  | cons a as ih =>
    cases y with
    | nil => simp [lexLe] at h1
    | cons b bs =>
      cases z with
      | nil => simp [lexLe] at h2
      | cons c cs =>
        rw [lexLe_cons] at h1 h2 ⊢
        rcases h1 with h1 | ⟨rfl, h1⟩
        · rcases h2 with h2 | ⟨rfl, h2⟩
          · exact Or.inl (by omega)
          · exact Or.inl h1
        · rcases h2 with h2 | ⟨rfl, h2⟩
          · exact Or.inl h2
          · exact Or.inr ⟨rfl, ih bs cs h1 h2⟩

theorem nocaseLe_total (a b : String) : nocaseLe a b = true ∨ nocaseLe b a = true :=
  lexLe_total (nameKey a) (nameKey b)

theorem nocaseLe_trans (a b c : String) (h1 : nocaseLe a b = true)
    (h2 : nocaseLe b c = true) : nocaseLe a c = true :=
  lexLe_trans (nameKey a) (nameKey b) (nameKey c) h1 h2

theorem mem_insertByName {a r : Row} {l : List Row} :
    a ∈ insertByName r l ↔ a = r ∨ a ∈ l := by
  induction l with
  | nil => simp [insertByName]
  | cons x xs ih =>
    simp only [insertByName]
    by_cases h : nocaseLe r.name x.name = true
    · rw [if_pos h]
      simp only [List.mem_cons]
    · rw [if_neg h]
      simp only [List.mem_cons, ih]
      tauto

theorem insertByName_perm (r : Row) (l : List Row) :
    List.Perm (insertByName r l) (r :: l) := by
  induction l with
  | nil => exact List.Perm.refl _
  | cons x xs ih =>
    simp only [insertByName]
    by_cases h : nocaseLe r.name x.name = true
    · rw [if_pos h]
    · rw [if_neg h]
      exact List.Perm.trans (List.Perm.cons x ih) (List.Perm.swap r x xs)

theorem sortByName_perm (l : List Row) : List.Perm (sortByName l) l := by
  induction l with
  | nil => exact List.Perm.refl _
  | cons x xs ih =>
    exact List.Perm.trans (insertByName_perm x (sortByName xs)) (List.Perm.cons x ih)

theorem mem_sortByName {a : Row} {l : List Row} : a ∈ sortByName l ↔ a ∈ l :=
  (sortByName_perm l).mem_iff

theorem pairwise_insertByName (r : Row) (l : List Row)
    (h : l.Pairwise (fun x y => nocaseLe x.name y.name = true)) :
    (insertByName r l).Pairwise (fun x y => nocaseLe x.name y.name = true) := by
  induction l with
  | nil => simp [insertByName]
  | cons x xs ih =>
    obtain ⟨hx, hxs⟩ := List.pairwise_cons.mp h
    simp only [insertByName]
    by_cases hr : nocaseLe r.name x.name = true
    · rw [if_pos hr]
      refine List.Pairwise.cons ?_ h
      intro y hy
      rcases List.mem_cons.mp hy with rfl | hy
      · exact hr
      · exact nocaseLe_trans _ _ _ hr (hx y hy)
    · rw [if_neg hr]
      refine List.Pairwise.cons ?_ (ih hxs)
      intro y hy
      rcases mem_insertByName.mp hy with hyr | hy
      · rw [hyr]
        rcases nocaseLe_total r.name x.name with h' | h'
        · exact absurd h' hr
        · exact h'
      · exact hx y hy

theorem sortByName_sorted (l : List Row) :
    (sortByName l).Pairwise (fun x y => nocaseLe x.name y.name = true) := by
  induction l with
  | nil => exact List.Pairwise.nil
  | cons x xs ih => exact pairwise_insertByName x _ ih

/-! Characterisation of LIKE matching for wildcard-free search text. -/

theorem likeM_cons (p : Char) (ps s : List Char) :
    likeM (p :: ps) s =
      if p = '%' then s.tails.any (fun t => likeM ps t)
      else
        match s with
        | [] => false
        | c :: ss => (if p = '_' then true else lcA p == lcA c) && likeM ps ss := rfl

theorem likeM_pct_iff (ps s : List Char) :
    likeM ('%' :: ps) s = true ↔ ∃ b, b <:+ s ∧ likeM ps b = true := by
  rw [likeM_cons, if_pos rfl, List.any_eq_true]
  constructor
  · rintro ⟨b, hb, h⟩
    exact ⟨b, (List.mem_tails b s).mp hb, h⟩
  · rintro ⟨b, hb, h⟩
    exact ⟨b, (List.mem_tails b s).mpr hb, h⟩

theorem likeM_plain_nil {p : Char} (hp : p ≠ '%') (ps : List Char) :
    likeM (p :: ps) [] = false := by
  rw [likeM_cons, if_neg hp]

theorem likeM_plain_cons {p : Char} (hp : p ≠ '%') (hp2 : p ≠ '_') (ps : List Char)
    (c : Char) (ss : List Char) :
    likeM (p :: ps) (c :: ss) = ((lcA p == lcA c) && likeM ps ss) := by
  rw [likeM_cons, if_neg hp]
  simp [hp2]

theorem likeM_tail_pct (t : List Char) : ∀ s, noWild t →
    (likeM (t ++ ['%']) s = true ↔ ∃ b c, s = b ++ c ∧ b.map lcA = t.map lcA) := by
  induction t with
  | nil =>
    intro s _
    rw [List.nil_append]
    constructor
    · intro _
      exact ⟨[], s, rfl, rfl⟩
    · intro _
      exact (likeM_pct_iff [] s).mpr ⟨[], List.nil_suffix, rfl⟩
  | cons p t' ih =>
    intro s ht
    have hp : p ≠ '%' := (ht p (List.mem_cons_self p t')).1
    have hp2 : p ≠ '_' := (ht p (List.mem_cons_self p t')).2
    have ht' : noWild t' := fun c hc => ht c (List.mem_cons_of_mem p hc)
    cases s with
    | nil =>
      rw [List.cons_append, likeM_plain_nil hp]
      refine iff_of_false (by simp) ?_
      rintro ⟨b, c, hbc, hmap⟩
      have hb : b = [] := by
        cases b with
        | nil => rfl
        | cons b0 bs => simp at hbc
      subst hb
      simp at hmap
    | cons c0 ss =>
      rw [List.cons_append, likeM_plain_cons hp hp2]
      constructor
      · intro h
        rw [Bool.and_eq_true] at h
        obtain ⟨h1, h2⟩ := h
        have hc : lcA p = lcA c0 := beq_iff_eq.mp h1
        obtain ⟨b, d, hbd, hmap⟩ := (ih ss ht').mp h2
        exact ⟨c0 :: b, d, by rw [List.cons_append, hbd], by simp [hmap, hc]⟩
      · rintro ⟨b, d, hbd, hmap⟩
        cases b with
        | nil => simp at hmap
        | cons b0 bs =>
          rw [List.cons_append] at hbd
          injection hbd with hbd1 hbd2
          simp only [List.map_cons, List.cons.injEq] at hmap
          obtain ⟨hm1, hm2⟩ := hmap
          rw [Bool.and_eq_true]
          refine ⟨?_, ?_⟩
          · rw [beq_iff_eq, hbd1, hm1]
          · exact (ih ss ht').mpr ⟨bs, d, hbd2, hm2⟩

theorem likeM_full_pattern (t s : List Char) (ht : noWild t) :
    likeM ('%' :: (t ++ ['%'])) s = true ↔ ciMatch t s := by
  rw [likeM_pct_iff]
  constructor
  · rintro ⟨b, ⟨a, rfl⟩, hb⟩
    obtain ⟨m, c, rfl, hmap⟩ := (likeM_tail_pct t b ht).mp hb
    exact ⟨a, m, c, (List.append_assoc a m c).symm, hmap⟩
  · rintro ⟨a, m, c, rfl, hmap⟩
    refine ⟨m ++ c, ⟨a, (List.append_assoc a m c).symm⟩, ?_⟩
    exact (likeM_tail_pct t (m ++ c) ht).mpr ⟨m, c, rfl, hmap⟩

theorem sqliteLike_pct_iff (text field : String) (ht : noWild text.data) :
    sqliteLike ("%" ++ text ++ "%") field = true ↔ ciMatch text.data field.data := by
  have h1 : "%".data = ['%'] := rfl
  have hdata : ("%" ++ text ++ "%").data = '%' :: (text.data ++ ['%']) := by
    simp [String.data_append, h1]
  rw [sqliteLike, hdata]
  exact likeM_full_pattern text.data field.data ht

theorem optLike_pct_iff (text : String) (o : Option String) (ht : noWild text.data) :
    optLike ("%" ++ text ++ "%") o = true ↔
      ∃ v, o = some v ∧ ciMatch text.data v.data := by
  cases o with
  | none => simp [optLike]
  | some v => simp [optLike, sqliteLike_pct_iff text v ht]

theorem rowTextMatch_iff (text : String) (r : Row) (ht : noWild text.data) :
    rowTextMatch ("%" ++ text ++ "%") r = true ↔ likeCond text r := by
  simp only [rowTextMatch, Bool.or_eq_true, likeCond,
    sqliteLike_pct_iff text r.name ht, optLike_pct_iff text r.ingredients ht,
    optLike_pct_iff text r.steps ht]
  exact or_assoc

theorem mem_map_sortByName (l : List Row) (q : Nat × String × Option String) :
    q ∈ (sortByName l).map listRow ↔ ∃ r ∈ l, listRow r = q := by
  simp only [List.mem_map, mem_sortByName]

/-- Claim C3 (amended) — Search: for every store state, every search
text free of the LIKE wildcards percent and underscore, and every
category filter, search_recipes_by_text returns exactly the tuples of
the records where the text occurs ASCII-case-insensitively as a
substring of name, ingredients, or steps (OR semantics — the match is
case-insensitive under SQLite's default LIKE, not case-sensitive);
when the filter is provided, non-empty and not the sentinel "Tout",
results are additionally restricted by exact category equality (AND
with the text match); and for empty text every record matches. -/
theorem search_characterization (s : Store) (text : String) (cf : Option String)
    (ht : noWild text.data) (q : Nat × String × Option String) :
    (q ∈ search_recipes_by_text s text cf ↔
      ∃ r ∈ s.rows, listRow r = q ∧ likeCond text r ∧ catCond cf r) ∧
    (text = "" → ∀ r ∈ s.rows, catCond cf r →
      listRow r ∈ search_recipes_by_text s text cf) := by
  have hmain : ∀ q : Nat × String × Option String,
      q ∈ search_recipes_by_text s text cf ↔
        ∃ r ∈ s.rows, listRow r = q ∧ likeCond text r ∧ catCond cf r := by
    intro q
    cases cf with
    | none =>
      show q ∈ (sortByName (s.rows.filter
          (fun r => rowTextMatch ("%" ++ text ++ "%") r))).map listRow ↔ _
      rw [mem_map_sortByName]
      constructor
      · rintro ⟨r, hr, rfl⟩
        obtain ⟨hr1, hr2⟩ := List.mem_filter.mp hr
        exact ⟨r, hr1, rfl, (rowTextMatch_iff text r ht).mp hr2, trivial⟩
      · rintro ⟨r, hr, rfl, hlike, -⟩
        exact ⟨r, List.mem_filter.mpr ⟨hr, (rowTextMatch_iff text r ht).mpr hlike⟩, rfl⟩
    | some c =>
      by_cases hc : c = "" ∨ c = "Tout"
      · have hdef : search_recipes_by_text s text (some c) =
            (sortByName (s.rows.filter
              (fun r => rowTextMatch ("%" ++ text ++ "%") r))).map listRow := by
          simp only [search_recipes_by_text]
          rw [if_pos hc]
        rw [hdef, mem_map_sortByName]
        constructor
        · rintro ⟨r, hr, rfl⟩
          obtain ⟨hr1, hr2⟩ := List.mem_filter.mp hr
          refine ⟨r, hr1, rfl, (rowTextMatch_iff text r ht).mp hr2, ?_⟩
          show c = "" ∨ c = "Tout" ∨ r.category = some c
          tauto
        · rintro ⟨r, hr, rfl, hlike, -⟩
          exact ⟨r, List.mem_filter.mpr ⟨hr, (rowTextMatch_iff text r ht).mpr hlike⟩, rfl⟩
      · have hdef : search_recipes_by_text s text (some c) =
            (sortByName (s.rows.filter
              (fun r => rowTextMatch ("%" ++ text ++ "%") r &&
                r.category == some c))).map listRow := by
          simp only [search_recipes_by_text]
          rw [if_neg hc]
        rw [hdef, mem_map_sortByName]
        constructor
        · rintro ⟨r, hr, rfl⟩
          obtain ⟨hr1, hr2⟩ := List.mem_filter.mp hr
          rw [Bool.and_eq_true] at hr2
          obtain ⟨hr2a, hr2b⟩ := hr2
          refine ⟨r, hr1, rfl, (rowTextMatch_iff text r ht).mp hr2a, ?_⟩
          exact Or.inr (Or.inr (beq_iff_eq.mp hr2b))
        · rintro ⟨r, hr, rfl, hlike, hcat⟩
          have hcat' : r.category = some c := by
            rcases hcat with h | h | h
            · exact absurd (Or.inl h) hc
            · exact absurd (Or.inr h) hc
            · exact h
          refine ⟨r, List.mem_filter.mpr ⟨hr, ?_⟩, rfl⟩
          rw [Bool.and_eq_true]
          exact ⟨(rowTextMatch_iff text r ht).mpr hlike, beq_iff_eq.mpr hcat'⟩
  refine ⟨hmain q, ?_⟩
  intro htext r hr hcat
  rw [hmain (listRow r)]
  refine ⟨r, hr, rfl, ?_, hcat⟩
  subst htext
  exact Or.inl ⟨[], [], r.name.data, rfl, rfl⟩

/-- Witness for search_characterization at a concrete store, search
text and filter. -/
theorem search_characterization_witness :
    (((1 : Nat), "Tarte", some "Plat") ∈
        search_recipes_by_text (Store.mk [chocolatRow] 2) "choco" none ↔
      ∃ r ∈ (Store.mk [chocolatRow] 2).rows,
        listRow r = (1, "Tarte", some "Plat") ∧
        likeCond "choco" r ∧ catCond none r) ∧
    ("choco" = "" → ∀ r ∈ (Store.mk [chocolatRow] 2).rows, catCond none r →
      listRow r ∈ search_recipes_by_text (Store.mk [chocolatRow] 2) "choco" none) :=
  search_characterization (Store.mk [chocolatRow] 2) "choco" none (by decide)
    (1, "Tarte", some "Plat")

/-- Claim C3 counterexample: searching for "choco" returns the record
whose ingredients contain "Chocolat" even though "choco" is not a
(case-sensitive) substring of its name, ingredients or steps — SQLite
LIKE folds ASCII letters, so the code returns strictly more than the
records in which the text occurs as a substring. -/
theorem search_not_case_sensitive_substring :
    search_recipes_by_text (Store.mk [chocolatRow] 2) "choco" none =
      [(1, "Tarte", some "Plat")] ∧
    chocolatRow.name = "Tarte" ∧
    chocolatRow.ingredients = some "Chocolat noir" ∧
    chocolatRow.steps = some "Melanger et cuire" ∧
    claimSubstring "choco" "Tarte" = false ∧
    claimSubstring "choco" "Chocolat noir" = false ∧
    claimSubstring "choco" "Melanger et cuire" = false :=
  ⟨by decide, rfl, rfl, rfl, by decide, by decide, by decide⟩

/-- Claim C4 — Ordering: for every store state (hence any insertion
order and any mixed-case names), both query_all_recipes (list_all) and
search_recipes_by_text return sequences sorted case-insensitively
lexicographically by name, i.e. consecutive result names are pairwise
related by the NOCASE order. -/
theorem results_sorted_nocase (s : Store) (text : String) (cf : Option String) :
    (query_all_recipes s).Pairwise (fun x y => nocaseLe x.2.1 y.2.1 = true) ∧
    (search_recipes_by_text s text cf).Pairwise
      (fun x y => nocaseLe x.2.1 y.2.1 = true) := by
  constructor
  · exact (sortByName_sorted s.rows).map listRow (fun a b hab => hab)
  · exact (sortByName_sorted _).map listRow (fun a b hab => hab)

/-! Concrete rows shared by witnesses and counterexamples. -/

/-- Rows absent for an id never matched make find? fail, and
delete_recipe_db then returns None and leaves the store untouched. -/
theorem delete_missing (s : Store) (recipe_id : Nat)
    (h : ∀ r ∈ s.rows, r.id ≠ recipe_id) :
    get_recipe_by_id s recipe_id = none ∧
    delete_recipe_db s recipe_id = (none, s) := by
  obtain ⟨rows, nid⟩ := s
  have hfind : rows.find? (fun r => r.id == recipe_id) = none := by
    rw [List.find?_eq_none]
    intro r hr
    simpa using h r hr
  have hget : get_recipe_by_id (Store.mk rows nid) recipe_id = none := by
    simp [get_recipe_by_id, hfind]
  have hrows : rows.filter (fun r => !(r.id == recipe_id)) = rows := by
    rw [List.filter_eq_self]
    intro r hr
    simpa using h r hr
  refine ⟨hget, ?_⟩
  simp only [delete_recipe_db, hget]
  rw [hrows]

/-- Claim C1 — Round-trip: creating a recipe from any input tuple and
reading the returned id back yields a record whose name, ingredients,
steps, prep_time, category and image_path equal the inputs exactly;
the id is the store-assigned fresh id, and created_at is not part of
the read-back tuple. -/
theorem create_then_get_roundtrip (s : Store) (hs : s.WF) (name : String)
    (ingredients steps prep_time category image_path : Option String)
    (now : String) :
    get_recipe_by_id
        (add_recipe_db s name ingredients steps prep_time category image_path now).1
        (add_recipe_db s name ingredients steps prep_time category image_path now).2 =
      some ⟨s.nextId, name, ingredients, steps, prep_time, category, image_path⟩ := by
  have hnone : s.rows.find? (fun r => r.id == s.nextId) = none := by
    rw [List.find?_eq_none]
    intro r hr
    have := hs r hr
    simp only [beq_iff_eq]
    omega
  simp [add_recipe_db, get_recipe_by_id, List.find?_append, hnone]

/-- Witness for create_then_get_roundtrip on the empty store. -/
theorem create_then_get_roundtrip_witness :
    get_recipe_by_id
        (add_recipe_db (Store.mk [] 1) "Soupe" (some "poireaux et patates")
          (some "cuire 20 min") (some "20 min") (some "Entrée") none
          "2024-05-01T10:00:00+00:00").1
        (add_recipe_db (Store.mk [] 1) "Soupe" (some "poireaux et patates")
          (some "cuire 20 min") (some "20 min") (some "Entrée") none
          "2024-05-01T10:00:00+00:00").2 =
      some ⟨1, "Soupe", some "poireaux et patates", some "cuire 20 min",
        some "20 min", some "Entrée", none⟩ :=
  create_then_get_roundtrip (Store.mk [] 1)
    (fun r hr => absurd hr (List.not_mem_nil r)) "Soupe"
    (some "poireaux et patates") (some "cuire 20 min") (some "20 min")
    (some "Entrée") none "2024-05-01T10:00:00+00:00"

/-- Claim C2 (amended) — get_recipe_by_id returns, for a present id,
exactly the seven selected columns of the stored row (id, name,
ingredients, steps, prep_time, category, image_path) but not
created_at, which its SELECT list omits; for an absent id it returns
the non-error absent result none. -/
theorem get_selected_columns (s : Store) (recipe_id : Nat) :
    (∀ r, s.rows.find? (fun r => r.id == recipe_id) = some r →
      get_recipe_by_id s recipe_id =
        some ⟨r.id, r.name, r.ingredients, r.steps, r.prep_time, r.category,
          r.image_path⟩) ∧
    (s.rows.find? (fun r => r.id == recipe_id) = none →
      get_recipe_by_id s recipe_id = none) := by
  constructor
  · intro r hr
    simp [get_recipe_by_id, hr]
  · intro h
    simp [get_recipe_by_id, h]

/-- Witness for get_selected_columns at a concrete one-row store. -/
theorem get_selected_columns_witness :
    get_recipe_by_id (Store.mk [soupeRow] 2) 1 =
      some ⟨1, "Soupe", some "poireaux et patates", some "cuire 20 min",
        some "20 min", some "Entrée",
        some "/home/user/recettes/images/img_1700000000000.png"⟩ :=
  (get_selected_columns (Store.mk [soupeRow] 2) 1).1 soupeRow (by decide)

/-- Claim C2 counterexample: two stores whose single rows differ only
in created_at give identical get_recipe_by_id results, so the value
returned by get cannot contain the created_at field of the data
model. -/
theorem get_does_not_return_created_at :
    soupeRowLater = { soupeRow with created_at := some "2025-06-30T12:00:00+00:00" } ∧
    soupeRow.created_at ≠ soupeRowLater.created_at ∧
    get_recipe_by_id (Store.mk [soupeRow] 2) 1 =
      get_recipe_by_id (Store.mk [soupeRowLater] 2) 1 :=
  ⟨rfl, by decide, rfl⟩

/-- Claim C5 — delete_recipe_db performs a read-then-delete: it
returns the previously stored image_path of the row (whatever that
Option value is), removes every row carrying the id while keeping all
others, returns None and leaves the store untouched when the id is
absent, and a second delete of the same id returns None and mutates
nothing further. -/
theorem delete_read_then_delete (s : Store) (recipe_id : Nat) :
    (∀ g, get_recipe_by_id s recipe_id = some g →
      (delete_recipe_db s recipe_id).1 = g.image_path) ∧
    (get_recipe_by_id s recipe_id = none →
      delete_recipe_db s recipe_id = (none, s)) ∧
    (∀ r ∈ (delete_recipe_db s recipe_id).2.rows, r.id ≠ recipe_id) ∧
    (∀ r ∈ s.rows, r.id ≠ recipe_id → r ∈ (delete_recipe_db s recipe_id).2.rows) ∧
    (delete_recipe_db (delete_recipe_db s recipe_id).2 recipe_id =
      (none, (delete_recipe_db s recipe_id).2)) := by
  refine ⟨?_, ?_, ?_, ?_, ?_⟩
  · intro g hg
    simp [delete_recipe_db, hg]
  · intro h
    have hfind : s.rows.find? (fun r => r.id == recipe_id) = none := by
      simpa [get_recipe_by_id] using h
    have hall : ∀ r ∈ s.rows, r.id ≠ recipe_id := by
      intro r hr
      have := List.find?_eq_none.mp hfind r hr
      simpa using this
    exact (delete_missing s recipe_id hall).2
  · intro r hr
    have := (List.mem_filter.mp hr).2
    simpa using this
  · intro r hr hne
    exact List.mem_filter.mpr ⟨hr, by simpa using hne⟩
  · have hall : ∀ r ∈ (delete_recipe_db s recipe_id).2.rows, r.id ≠ recipe_id := by
      intro r hr
      have := (List.mem_filter.mp hr).2
      simpa using this
    exact (delete_missing _ recipe_id hall).2

/-- Witness for delete_read_then_delete: a present row yields its
stored image path, an absent id yields None with the store intact. -/
theorem delete_read_then_delete_witness :
    (delete_recipe_db (Store.mk [soupeRow] 2) 1).1 =
      some "/home/user/recettes/images/img_1700000000000.png" ∧
    delete_recipe_db (Store.mk [] 5) 3 = (none, Store.mk [] 5) :=
  ⟨(delete_read_then_delete (Store.mk [soupeRow] 2) 1).1
      ⟨1, "Soupe", some "poireaux et patates", some "cuire 20 min",
        some "20 min", some "Entrée",
        some "/home/user/recettes/images/img_1700000000000.png"⟩ (by decide),
   (delete_read_then_delete (Store.mk [] 5) 3).2.1 rfl⟩

/-- Claim C6 — Missing-id operations: for an id carried by no row,
update_recipe_db is a silent no-op (the store, hence every record and
the total record count, is unchanged), and get and delete likewise
report the miss as an absent or no-op result rather than an error. -/
theorem missing_id_silent_noop (s : Store) (recipe_id : Nat)
    (h : ∀ r ∈ s.rows, r.id ≠ recipe_id) (name : String)
    (ingredients steps prep_time category image_path : Option String) :
    update_recipe_db s recipe_id name ingredients steps prep_time category
      image_path = s ∧
    (update_recipe_db s recipe_id name ingredients steps prep_time category
      image_path).rows.length = s.rows.length ∧
    get_recipe_by_id s recipe_id = none ∧
    delete_recipe_db s recipe_id = (none, s) := by
  obtain ⟨rows, nid⟩ := s
  have hmap : rows.map (fun r =>
      if r.id == recipe_id then
        { r with name := name, ingredients := ingredients, steps := steps,
                 prep_time := prep_time, category := category,
                 image_path := image_path }
      else r) = rows := by
    have hcong : ∀ r ∈ rows, (if r.id == recipe_id then
        { r with name := name, ingredients := ingredients, steps := steps,
                 prep_time := prep_time, category := category,
                 image_path := image_path }
      else r) = id r := by
      intro r hr
      simp [h r hr]
    rw [List.map_congr_left hcong, List.map_id]
  have hupd : update_recipe_db (Store.mk rows nid) recipe_id name ingredients
      steps prep_time category image_path = Store.mk rows nid := by
    simp only [update_recipe_db]
    rw [hmap]
  obtain ⟨hget, hdel⟩ := delete_missing (Store.mk rows nid) recipe_id h
  exact ⟨hupd, by rw [hupd], hget, hdel⟩

/-- Witness for missing_id_silent_noop at id 9999 on a one-row
store. -/
theorem missing_id_silent_noop_witness :
    update_recipe_db (Store.mk [soupeRow] 2) 9999 "X" none none none none
      none = Store.mk [soupeRow] 2 ∧
    (update_recipe_db (Store.mk [soupeRow] 2) 9999 "X" none none none none
      none).rows.length = (Store.mk [soupeRow] 2).rows.length ∧
    get_recipe_by_id (Store.mk [soupeRow] 2) 9999 = none ∧
    delete_recipe_db (Store.mk [soupeRow] 2) 9999 =
      (none, Store.mk [soupeRow] 2) :=
  missing_id_silent_noop (Store.mk [soupeRow] 2) 9999 (by decide) "X"
    none none none none none

/-- Claim C10 — delete_recipe_db returns the same value None both when
no row carries the id and when the row exists but its image_path is
NULL, so the caller cannot distinguish a lookup-miss from the deletion
of an image-less record by the return value alone. -/
theorem delete_none_indistinguishable (s : Store) (recipe_id : Nat) :
    (get_recipe_by_id s recipe_id = none →
      (delete_recipe_db s recipe_id).1 = none) ∧
    (∀ g, get_recipe_by_id s recipe_id = some g → g.image_path = none →
      (delete_recipe_db s recipe_id).1 = none) := by
  constructor
  · intro h
    simp [delete_recipe_db, h]
  · intro g hg himg
    simp [delete_recipe_db, hg, himg]

/-- Witness for delete_none_indistinguishable: an absent id and an
image-less row produce the same None return. -/
theorem delete_none_indistinguishable_witness :
    (delete_recipe_db (Store.mk [painRow] 2) 7).1 = none ∧
    (delete_recipe_db (Store.mk [painRow] 2) 1).1 = none :=
  ⟨(delete_none_indistinguishable (Store.mk [painRow] 2) 7).1 (by decide),
   (delete_none_indistinguishable (Store.mk [painRow] 2) 1).2
     ⟨1, "Pain", none, none, none, some "Autre", none⟩ (by decide) rfl⟩

/-! Image-asset lifecycle claims. -/

/-- Behaviour of the guarded erase shared by on_remove_image,
on_delete_cleanup and on_import_image: it is the identity unless the
path exists and lies inside the directory, and any path that
disappears is that very path. -/
theorem erase_guard_spec (imagesDir : Path) (fs : List Path) (p : Path) :
    ((p ∉ fs ∨ insideDir imagesDir p = false) →
      (if fs.contains p && insideDir imagesDir p then fs.erase p else fs) = fs) ∧
    (∀ q ∈ fs,
      q ∉ (if fs.contains p && insideDir imagesDir p then fs.erase p else fs) →
      q = p ∧ p ∈ fs ∧ insideDir imagesDir p = true) := by
  constructor
  · intro h
    rcases h with h | h
    · have hc : fs.contains p = false := by simpa using h
      rw [hc]
      simp
    · rw [h]
      simp
  · intro q hq hnq
    by_cases hcond : (fs.contains p && insideDir imagesDir p) = true
    · rw [if_pos hcond] at hnq
      rw [Bool.and_eq_true] at hcond
      have hpmem : p ∈ fs := by simpa using hcond.1
      have hq_eq : q = p := by
        by_contra hne
        exact hnq ((List.mem_erase_of_ne hne).mpr hq)
      exact ⟨hq_eq, hpmem, hcond.2⟩
    · rw [if_neg hcond] at hnq
      exact absurd hq hnq

/-- Claim C7 — Asset-removal safety: for a path that is empty (no
current image), absent from the filesystem, or outside the managed
images directory, both on_remove_image and the cleanup step of
on_delete change nothing (they are silent no-ops and the targeted file
survives); conversely any file they delete is the given path, and only
when it exists and lies inside the managed directory. -/
theorem remove_image_safety (imagesDir : Path) (fs : List Path) (p : Path) :
    on_remove_image imagesDir fs none = (fs, none) ∧
    (p ∉ fs → on_remove_image imagesDir fs (some p) = (fs, none)) ∧
    (insideDir imagesDir p = false →
      on_remove_image imagesDir fs (some p) = (fs, none)) ∧
    on_delete_cleanup imagesDir fs none = fs ∧
    (p ∉ fs → on_delete_cleanup imagesDir fs (some p) = fs) ∧
    (insideDir imagesDir p = false →
      on_delete_cleanup imagesDir fs (some p) = fs) ∧
    (∀ q ∈ fs, q ∉ (on_remove_image imagesDir fs (some p)).1 →
      q = p ∧ p ∈ fs ∧ insideDir imagesDir p = true) ∧
    (∀ q ∈ fs, q ∉ on_delete_cleanup imagesDir fs (some p) →
      q = p ∧ p ∈ fs ∧ insideDir imagesDir p = true) := by
  refine ⟨rfl, ?_, ?_, rfl, ?_, ?_, ?_, ?_⟩
  · intro hp
    show ((if fs.contains p && insideDir imagesDir p then fs.erase p else fs),
      (none : Option Path)) = (fs, none)
    rw [(erase_guard_spec imagesDir fs p).1 (Or.inl hp)]
  · intro hin
    show ((if fs.contains p && insideDir imagesDir p then fs.erase p else fs),
      (none : Option Path)) = (fs, none)
    rw [(erase_guard_spec imagesDir fs p).1 (Or.inr hin)]
  · intro hp
    exact (erase_guard_spec imagesDir fs p).1 (Or.inl hp)
  · intro hin
    exact (erase_guard_spec imagesDir fs p).1 (Or.inr hin)
  · intro q hq hnq
    exact (erase_guard_spec imagesDir fs p).2 q hq hnq
  · intro q hq hnq
    exact (erase_guard_spec imagesDir fs p).2 q hq hnq

/-- Witness for remove_image_safety: removing /etc/hosts, a path
outside the managed directory, is a no-op for both handlers. -/
theorem remove_image_safety_witness :
    on_remove_image imagesDirEx [etcHosts] (some etcHosts) =
      ([etcHosts], none) ∧
    on_delete_cleanup imagesDirEx [etcHosts] (some etcHosts) = [etcHosts] :=
  ⟨(remove_image_safety imagesDirEx [etcHosts] etcHosts).2.2.1 (by decide),
   (remove_image_safety imagesDirEx [etcHosts] etcHosts).2.2.2.2.2.1 (by decide)⟩

/-! Injectivity of the decimal rendering used in generated image
filenames (toString on Nat is Nat.repr). -/

theorem digitsR_lt {n : Nat} (h : n < 10) : digitsR n = [Nat.digitChar n] := by
  rw [digitsR]
  rw [dif_pos h]

theorem digitsR_ge {n : Nat} (h : ¬ n < 10) :
    digitsR n = digitsR (n / 10) ++ [Nat.digitChar (n % 10)] := by
  conv_lhs => rw [digitsR]
  rw [dif_neg h]

theorem toDigitsCore_shift (fuel : Nat) : ∀ (n : Nat) (ds : List Char),
    Nat.toDigitsCore 10 fuel n ds = Nat.toDigitsCore 10 fuel n [] ++ ds := by
  induction fuel with
  | zero => intro n ds; rfl
  | succ fuel ih =>
    intro n ds
    simp only [Nat.toDigitsCore]
    by_cases h : n / 10 = 0
    · simp [h]
    · rw [if_neg h, if_neg h, ih (n / 10) (Nat.digitChar (n % 10) :: ds),
        ih (n / 10) [Nat.digitChar (n % 10)], List.append_assoc]
      rfl

theorem toDigitsCore_eq_digitsR : ∀ fuel n, n < fuel →
    Nat.toDigitsCore 10 fuel n [] = digitsR n := by
  intro fuel
  induction fuel with
  | zero => intro n h; omega
  | succ fuel ih =>
    intro n h
    simp only [Nat.toDigitsCore]
    by_cases h0 : n / 10 = 0
    · rw [if_pos h0]
      have hn : n < 10 := by omega
      rw [digitsR_lt hn, Nat.mod_eq_of_lt hn]
    · rw [if_neg h0, toDigitsCore_shift, ih (n / 10) (by omega)]
      rw [digitsR_ge (n := n) (by omega)]

theorem digitChar_inj10 (a : Nat) (ha : a < 10) (b : Nat) (hb : b < 10)
    (h : Nat.digitChar a = Nat.digitChar b) : a = b := by
  interval_cases a <;> interval_cases b <;> revert h <;> decide

theorem digitsR_ne_nil (n : Nat) : digitsR n ≠ [] := by
  by_cases h : n < 10
  · rw [digitsR_lt h]
    simp
  · rw [digitsR_ge h]
    simp

theorem digitsR_inj (n : Nat) : ∀ m, digitsR n = digitsR m → n = m := by
  induction n using Nat.strong_induction_on with
  | _ n ih =>
    intro m h
    by_cases hn : n < 10 <;> by_cases hm : m < 10
    · rw [digitsR_lt hn, digitsR_lt hm] at h
      simp only [List.cons.injEq, and_true] at h
      exact digitChar_inj10 n hn m hm h
    · rw [digitsR_lt hn, digitsR_ge hm] at h
      have hl := congrArg List.length h
      simp only [List.length_cons, List.length_nil, List.length_append] at hl
      have hpos := List.length_pos.mpr (digitsR_ne_nil (m / 10))
      omega
    · rw [digitsR_ge hn, digitsR_lt hm] at h
      have hl := congrArg List.length h
      simp only [List.length_cons, List.length_nil, List.length_append] at hl
      have hpos := List.length_pos.mpr (digitsR_ne_nil (n / 10))
      omega
    · rw [digitsR_ge hn, digitsR_ge hm] at h
      obtain ⟨h1, h2⟩ := List.append_inj' h rfl
      have hq := ih (n / 10) (Nat.div_lt_self (by omega) (by decide)) (m / 10) h1
      simp only [List.cons.injEq, and_true] at h2
      have hr := digitChar_inj10 (n % 10) (by omega) (m % 10) (by omega) h2
      omega

theorem natRepr_data_inj {n m : Nat}
    (h : (Nat.repr n).data = (Nat.repr m).data) : n = m := by
  have h2 : Nat.toDigits 10 n = Nat.toDigits 10 m := h
  rw [Nat.toDigits, Nat.toDigits,
    toDigitsCore_eq_digitsR (n + 1) n (by omega),
    toDigitsCore_eq_digitsR (m + 1) m (by omega)] at h2
  exact digitsR_inj n m h2

/-- Distinct millisecond timestamps generate distinct destination
paths: the filename embeds the decimal rendering of the timestamp. -/
theorem importDest_inj (imagesDir : Path) (src : Path) {t1 t2 : Nat}
    (hne : t1 ≠ t2) :
    importDest imagesDir t1 src ≠ importDest imagesDir t2 src := by
  intro he
  apply hne
  unfold importDest at he
  have h1 := List.append_cancel_left he
  simp only [List.cons.injEq, and_true] at h1
  have h2 := congrArg String.data h1
  simp only [String.data_append] at h2
  rw [List.append_assoc, List.append_assoc] at h2
  have h3 := List.append_cancel_left h2
  have h4 := (List.append_inj' h3 rfl).1
  exact natRepr_data_inj h4

theorem mem_insertPath {a p : Path} {l : List Path} :
    a ∈ insertPath p l ↔ a = p ∨ a ∈ l := by
  unfold insertPath
  by_cases h : l.contains p = true
  · rw [if_pos h]
    have hp : p ∈ l := by simpa using h
    constructor
    · exact Or.inr
    · rintro (rfl | ha)
      · exact hp
      · exact ha
  · rw [if_neg h]
    exact List.mem_cons

/-- A directory is an ancestor of any path directly inside it. -/
theorem insideDir_append (dir : Path) (x : String) :
    insideDir dir (dir ++ [x]) = true := by
  unfold insideDir
  induction dir with
  | nil => rfl
  | cons d ds ih => simp [List.isPrefixOf, ih]

/-- Claim C8 (amended) — Asset uniqueness and replacement: two
successive imports of the same source at distinct millisecond
timestamps generate distinct managed destination paths (the filename
embeds the decimal timestamp, so no collision); after both calls the
second managed file is present on disk, but the first is not: the
second on_import_image call deletes the previously imported file the
form still references (its replace-old-image step), so only the newest
managed file survives. -/
theorem import_twice_replaces (imagesDir : Path) (fs : List Path) (src : Path)
    (t1 t2 : Nat) (d1 d2 : Path)
    (hd1 : d1 = importDest imagesDir t1 src)
    (hd2 : d2 = importDest imagesDir t2 src)
    (hne : t1 ≠ t2) (hfresh : d1 ∉ fs) :
    on_import_image imagesDir fs none src t1 CopyOutcome.ok =
      (d1 :: fs, some d1, false) ∧
    d1 ≠ d2 ∧
    d2 ∈ (on_import_image imagesDir (d1 :: fs) (some d1) src t2
      CopyOutcome.ok).1 ∧
    d1 ∉ (on_import_image imagesDir (d1 :: fs) (some d1) src t2
      CopyOutcome.ok).1 := by
  have hd12 : d1 ≠ d2 := by
    rw [hd1, hd2]
    exact importDest_inj imagesDir src hne
  have hins1 : insertPath d1 fs = d1 :: fs := by
    unfold insertPath
    rw [if_neg (by simpa using hfresh)]
  have h1 : on_import_image imagesDir fs none src t1 CopyOutcome.ok =
      (d1 :: fs, some d1, false) := by
    simp only [on_import_image, shutil_copy]
    rw [← hd1, hins1]
  have hinside : insideDir imagesDir d1 = true := by
    rw [hd1]
    exact insideDir_append imagesDir _
  have hcond : ((insertPath d2 (d1 :: fs)).contains d1 &&
      insideDir imagesDir d1) = true := by
    rw [Bool.and_eq_true]
    refine ⟨?_, hinside⟩
    have : d1 ∈ insertPath d2 (d1 :: fs) :=
      mem_insertPath.mpr (Or.inr (List.mem_cons_self d1 fs))
    simpa using this
  have h2 : on_import_image imagesDir (d1 :: fs) (some d1) src t2
      CopyOutcome.ok = ((insertPath d2 (d1 :: fs)).erase d1, some d2, false) := by
    simp only [on_import_image, shutil_copy]
    rw [← hd2, if_pos hcond]
  have hcount : List.count d1 (insertPath d2 (d1 :: fs)) = 1 := by
    have hc1 : List.count d1 (d1 :: fs) = 1 := by
      rw [List.count_cons_self, List.count_eq_zero.mpr hfresh]
    unfold insertPath
    by_cases hc2 : ((d1 :: fs).contains d2) = true
    · rw [if_pos hc2]
      exact hc1
    · rw [if_neg hc2, List.count_cons_of_ne hd12]
      exact hc1
  have hzero : List.count d1 ((insertPath d2 (d1 :: fs)).erase d1) = 0 := by
    rw [List.count_erase_self, hcount]
  refine ⟨h1, hd12, ?_, ?_⟩
  · rw [h2]
    exact (List.mem_erase_of_ne (Ne.symm hd12)).mpr
      (mem_insertPath.mpr (Or.inl rfl))
  · rw [h2]
    exact List.count_eq_zero.mp hzero

/-- Witness for import_twice_replaces at concrete timestamps 1 and
2. -/
theorem import_twice_replaces_witness :
    on_import_image imagesDirEx [srcEx] none srcEx 1 CopyOutcome.ok =
      (importDest imagesDirEx 1 srcEx :: [srcEx],
        some (importDest imagesDirEx 1 srcEx), false) ∧
    importDest imagesDirEx 1 srcEx ≠ importDest imagesDirEx 2 srcEx ∧
    importDest imagesDirEx 2 srcEx ∈
      (on_import_image imagesDirEx (importDest imagesDirEx 1 srcEx :: [srcEx])
        (some (importDest imagesDirEx 1 srcEx)) srcEx 2 CopyOutcome.ok).1 ∧
    importDest imagesDirEx 1 srcEx ∉
      (on_import_image imagesDirEx (importDest imagesDirEx 1 srcEx :: [srcEx])
        (some (importDest imagesDirEx 1 srcEx)) srcEx 2 CopyOutcome.ok).1 :=
  import_twice_replaces imagesDirEx [srcEx] srcEx 1 2 _ _ rfl rfl
    (by decide) (by decide)

/-- Claim C8 counterexample: two successive on_import_image calls of
the same source do produce distinct destination paths, but afterwards
the first managed file is no longer on disk — the second call removed
it — contradicting the claim that both managed files are present after
both calls. -/
theorem import_twice_not_both_present :
    (on_import_image imagesDirEx [srcEx] none srcEx 1 CopyOutcome.ok).2.1 =
      some (importDest imagesDirEx 1 srcEx) ∧
    importDest imagesDirEx 1 srcEx ≠ importDest imagesDirEx 2 srcEx ∧
    importDest imagesDirEx 2 srcEx ∈
      (on_import_image imagesDirEx
        (on_import_image imagesDirEx [srcEx] none srcEx 1 CopyOutcome.ok).1
        (on_import_image imagesDirEx [srcEx] none srcEx 1 CopyOutcome.ok).2.1
        srcEx 2 CopyOutcome.ok).1 ∧
    importDest imagesDirEx 1 srcEx ∉
      (on_import_image imagesDirEx
        (on_import_image imagesDirEx [srcEx] none srcEx 1 CopyOutcome.ok).1
        (on_import_image imagesDirEx [srcEx] none srcEx 1 CopyOutcome.ok).2.1
        srcEx 2 CopyOutcome.ok).1 :=
  ⟨by decide, by decide, by decide, by decide⟩

/-- Claim C9 (amended) — Import failure semantics: a failure to open
the source or the destination leaves the filesystem and the form
unchanged and reports the error through a dialog (the handler catches
every exception, so no AssetImportError propagates to the caller); a
failure during the data transfer also reports the error, but leaves a
partial file at the final destination path, because shutil.copy writes
the destination in place with no rename/finalize step. -/
theorem import_failure_semantics (imagesDir : Path) (fs : List Path)
    (current : Option Path) (src : Path) (t : Nat) :
    on_import_image imagesDir fs current src t CopyOutcome.srcOpenFail =
      (fs, current, true) ∧
    on_import_image imagesDir fs current src t CopyOutcome.destOpenFail =
      (fs, current, true) ∧
    on_import_image imagesDir fs current src t CopyOutcome.midCopyFail =
      (insertPath (importDest imagesDir t src) fs, current, true) ∧
    importDest imagesDir t src ∈
      (on_import_image imagesDir fs current src t CopyOutcome.midCopyFail).1 :=
  ⟨rfl, rfl, rfl, mem_insertPath.mpr (Or.inl rfl)⟩

/-- Claim C9 counterexample: an import failing in mid-copy reports the
error yet leaves the (partial) destination file behind in the managed
directory, so the import is not all-or-nothing and the destination was
not finalized only after a successful copy. -/
theorem import_midcopy_partial_file :
    (on_import_image imagesDirEx [srcEx] none srcEx 5
      CopyOutcome.midCopyFail).2.2 = true ∧
    (on_import_image imagesDirEx [srcEx] none srcEx 5
      CopyOutcome.midCopyFail).2.1 = none ∧
    importDest imagesDirEx 5 srcEx ∈
      (on_import_image imagesDirEx [srcEx] none srcEx 5
        CopyOutcome.midCopyFail).1 :=
  ⟨rfl, rfl, by decide⟩

end Recette
